import Mathlib

/-!
Verification development for the object-modeling utilities module
(`src/06-objects-tasks.js`): a CSS selector builder (class `Selector` with a
`cssSelectorBuilder` facade), a `Rectangle` constructor, and the JSON helpers
`getJSON` / `fromJSON`.

Modelling conventions:
* JavaScript strings are modelled as Lean `String` (or `List Char` in the JSON
  part); string truthiness is `s ≠ ""`.
* A JavaScript method call `recv.m(v)` both possibly mutates `recv` (here,
  `ensureOrder` assigns `this.order`) and returns a result or throws.  Each
  method is therefore modelled as a pure function returning the pair
  `(receiver after the call, Except errorMessage returnedValue)`.
* Thrown `Error(msg)` values are modelled by their message strings.
-/

/-- The state of a simple (non-combined) selector fragment: the fields
initialised by the argument-less `Selector` constructor.  Stored tokens are
kept already decorated, exactly as the source stores them
(`#id`, `.class`, `[attr]`, `:pseudoClass`, `::pseudoElement`). -/
structure SimpleSelector where
  elementValue : String
  idValue : String
  classValues : List String
  attrValues : List String
  pseudoClassValues : List String
  pseudoElementValue : String
  order : Nat
deriving DecidableEq, Repr

/-- `new Selector()` with no arguments: all constructor arguments are falsy,
so every field is initialised empty and `order` is `0`. -/
def newSelector : SimpleSelector :=
  { elementValue := ""
    idValue := ""
    classValues := []
    attrValues := []
    pseudoClassValues := []
    pseudoElementValue := ""
    order := 0 }

/-- JavaScript truthiness of a string: every string except `''` is truthy. -/
def truthy (s : String) : Bool := s ≠ ""

/-- The message of the error thrown by `ensureOrder`. -/
def orderingMessage : String :=
  "Selector parts should be arranged in the following order: element, id, class, attribute, pseudo-class, pseudo-element"

/-- The message of the error thrown by `ensureSingle`. -/
def uniquenessMessage : String :=
  "Element, id and pseudo-element should not occur more then one time inside the selector"

namespace SimpleSelector

/-- `ensureOrder(orderValue)`: throws when `orderValue < this.order`,
otherwise assigns `this.order = orderValue` (a mutation of the receiver).
Returns the receiver after the call, plus the error when one was thrown. -/
def ensureOrder (s : SimpleSelector) (orderValue : Nat) :
    SimpleSelector × Option String :=
  if orderValue < s.order then (s, some orderingMessage)
  else ({ s with order := orderValue }, none)

/-- `ensureSingle(fieldName)`: throws when `this[fieldName]` is truthy.
The receiver is not mutated, so only the optional error is returned. -/
def ensureSingle (value : String) : Option String :=
  if truthy value then some uniquenessMessage else none

/-- `clone()`: a fresh `Selector` whose fields copy the receiver's, with the
array fields shallow-copied (`[...xs]`). -/
def clone (s : SimpleSelector) : SimpleSelector :=
  { elementValue := s.elementValue
    idValue := s.idValue
    classValues := s.classValues
    attrValues := s.attrValues
    pseudoClassValues := s.pseudoClassValues
    pseudoElementValue := s.pseudoElementValue
    order := s.order }

/-- `element(value)`: `ensureOrder(1)`, `ensureSingle('elementValue')`, then
clone, set `elementValue = value`, set `order = 1` and return the clone. -/
def element (s : SimpleSelector) (value : String) :
    SimpleSelector × Except String SimpleSelector :=
  match ensureOrder s 1 with
  | (s1, some e) => (s1, .error e)
  | (s1, none) =>
    match ensureSingle s1.elementValue with
    | some e => (s1, .error e)
    | none => (s1, .ok { clone s1 with elementValue := value, order := 1 })

/-- `id(value)`: `ensureOrder(2)`, `ensureSingle('idValue')`, then clone,
set `idValue` to `'#' + value`, set `order = 2` and return the clone. -/
def id (s : SimpleSelector) (value : String) :
    SimpleSelector × Except String SimpleSelector :=
  match ensureOrder s 2 with
  | (s1, some e) => (s1, .error e)
  | (s1, none) =>
    match ensureSingle s1.idValue with
    | some e => (s1, .error e)
    | none => (s1, .ok { clone s1 with idValue := "#" ++ value, order := 2 })

/-- `class(value)`: `ensureOrder(3)`, then clone, push `'.' + value` onto
`classValues`, set `order = 3` and return the clone. -/
def «class» (s : SimpleSelector) (value : String) :
    SimpleSelector × Except String SimpleSelector :=
  match ensureOrder s 3 with
  | (s1, some e) => (s1, .error e)
  | (s1, none) =>
    (s1, .ok { clone s1 with
                classValues := s1.classValues ++ ["." ++ value], order := 3 })

/-- `attr(value)`: `ensureOrder(4)`, then clone, push `'[' + value + ']'` onto
`attrValues`, set `order = 4` and return the clone. -/
def attr (s : SimpleSelector) (value : String) :
    SimpleSelector × Except String SimpleSelector :=
  match ensureOrder s 4 with
  | (s1, some e) => (s1, .error e)
  | (s1, none) =>
    (s1, .ok { clone s1 with
                attrValues := s1.attrValues ++ ["[" ++ value ++ "]"],
                order := 4 })

/-- `pseudoClass(value)`: `ensureOrder(5)`, then clone, push `':' + value`
onto `pseudoClassValues`, set `order = 5` and return the clone. -/
def pseudoClass (s : SimpleSelector) (value : String) :
    SimpleSelector × Except String SimpleSelector :=
  match ensureOrder s 5 with
  | (s1, some e) => (s1, .error e)
  | (s1, none) =>
    (s1, .ok { clone s1 with
                pseudoClassValues := s1.pseudoClassValues ++ [":" ++ value],
                order := 5 })

/-- `pseudoElement(value)`: `ensureOrder(6)`, `ensureSingle('pseudoElementValue')`,
then clone, set `pseudoElementValue` to `'::' + value`, set `order = 6` and
return the clone. -/
def pseudoElement (s : SimpleSelector) (value : String) :
    SimpleSelector × Except String SimpleSelector :=
  match ensureOrder s 6 with
  | (s1, some e) => (s1, .error e)
  | (s1, none) =>
    match ensureSingle s1.pseudoElementValue with
    | some e => (s1, .error e)
    | none =>
      (s1, .ok { clone s1 with
                  pseudoElementValue := "::" ++ value, order := 6 })

/-- The non-combined branch of `stringify()`: the concatenation of
`elementValue`, `idValue`, the joined `classValues`, `attrValues` and
`pseudoClassValues`, and `pseudoElementValue`, with no separators. -/
def stringify (s : SimpleSelector) : String :=
  s.elementValue ++ s.idValue ++ String.join s.classValues
    ++ String.join s.attrValues ++ String.join s.pseudoClassValues
    ++ s.pseudoElementValue

end SimpleSelector

/-- A `Selector` object: either a simple fragment (`isCombined = false`) or a
combined node holding `selector1`, the `combinator` string and `selector2`
(`isCombined = true`). -/
inductive Selector where
  | simple (s : SimpleSelector)
  | combined (selector1 : Selector) (combinator : String) (selector2 : Selector)
deriving DecidableEq, Repr

/-- `stringify()`: the combined branch interpolates
`selector1.stringify() + ' ' + combinator + ' ' + selector2.stringify()`;
the simple branch concatenates the stored parts. -/
def Selector.stringify : Selector → String
  | .simple s => s.stringify
  | .combined selector1 combinator selector2 =>
      selector1.stringify ++ " " ++ combinator ++ " " ++ selector2.stringify

/-- `cssSelectorBuilder.combine(selector1, combinator, selector2)` =
`new Selector(selector1, combinator, selector2)`.  The constructor takes the
combined branch only when all three arguments are truthy; the two selector
arguments are objects and hence always truthy, so the test reduces to the
truthiness of the `combinator` string.  Otherwise the constructor falls
through to the empty-simple-fragment initialisation. -/
def combine (selector1 : Selector) (combinator : String) (selector2 : Selector) :
    Selector :=
  if truthy combinator then .combined selector1 combinator selector2
  else .simple newSelector

/-- The six selector-part categories of the builder. -/
inductive Category where
  | element
  | id
  | «class»
  | attr
  | pseudoClass
  | pseudoElement
deriving DecidableEq, Repr

/-- The rank passed to `ensureOrder` by each category's method. -/
def Category.rank : Category → Nat
  | .element => 1
  | .id => 2
  | .«class» => 3
  | .attr => 4
  | .pseudoClass => 5
  | .pseudoElement => 6

/-- Dispatch a category method call on a simple fragment. -/
def applyCategory (s : SimpleSelector) (c : Category) (v : String) :
    SimpleSelector × Except String SimpleSelector :=
  match c with
  | .element => s.element v
  | .id => s.id v
  | .«class» => s.«class» v
  | .attr => s.attr v
  | .pseudoClass => s.pseudoClass v
  | .pseudoElement => s.pseudoElement v

/-- Run a builder chain: each step calls the next category method on the
fragment returned by the previous step (the JS chaining pattern
`builder.element(..).id(..)...`); the first thrown error aborts the chain. -/
def runChain (s : SimpleSelector) : List (Category × String) → Except String SimpleSelector
  | [] => .ok s
  | (c, v) :: rest =>
    match (applyCategory s c v).2 with
    | .error e => .error e
    | .ok next => runChain next rest

/-- The ranks of a chain's calls, in call order. -/
def ranksOf (ops : List (Category × String)) : List Nat :=
  ops.map (fun p => p.1.rank)

/-- A list of naturals is non-decreasing. -/
def nondecreasing : List Nat → Bool
  | [] => true
  | [_] => true
  | a :: b :: rest => a ≤ b && nondecreasing (b :: rest)

/-- How many calls of a chain use category `c`. -/
def countCat (c : Category) (ops : List (Category × String)) : Nat :=
  (ops.filter (fun p => p.1 = c)).length

/-- A valid builder chain: non-decreasing category ranks, and each of the
single-occurrence categories (element, id, pseudo-element) used at most once. -/
def validChain (ops : List (Category × String)) : Prop :=
  nondecreasing (ranksOf ops) = true
    ∧ countCat .element ops ≤ 1
    ∧ countCat .id ops ≤ 1
    ∧ countCat .pseudoElement ops ≤ 1

instance (ops : List (Category × String)) : Decidable (validChain ops) :=
  inferInstanceAs (Decidable (_ ∧ _ ∧ _ ∧ _))

/-- The values a chain passes to category `c`, in call order. -/
def valuesOf (c : Category) (ops : List (Category × String)) : List String :=
  ops.filterMap (fun p => if p.1 = c then some p.2 else none)

/-- The decorated token of one call, as the claim describes it: element text
bare, id prefixed `#`, class prefixed `.`, attribute wrapped `[...]`,
pseudo-class prefixed `:`, pseudo-element prefixed `::`. -/
def decorate (c : Category) (v : String) : String :=
  match c with
  | .element => v
  | .id => "#" ++ v
  | .«class» => "." ++ v
  | .attr => "[" ++ v ++ "]"
  | .pseudoClass => ":" ++ v
  | .pseudoElement => "::" ++ v

/-- The output the claim predicts for a chain: the six category groups
concatenated in rank order, each group the concatenation of its decorated
tokens in insertion order, with no separators. -/
def expectedOutput (ops : List (Category × String)) : String :=
  String.join ((valuesOf .element ops).map (decorate .element))
    ++ String.join ((valuesOf .id ops).map (decorate .id))
    ++ String.join ((valuesOf .«class» ops).map (decorate .«class»))
    ++ String.join ((valuesOf .attr ops).map (decorate .attr))
    ++ String.join ((valuesOf .pseudoClass ops).map (decorate .pseudoClass))
    ++ String.join ((valuesOf .pseudoElement ops).map (decorate .pseudoElement))

/-- The effect of one successful category call on the fragment that the call
returns (the source's clone-then-set step). -/
def applySpecOp (s : SimpleSelector) (p : Category × String) : SimpleSelector :=
  match p.1 with
  | .element => { s with elementValue := p.2, order := 1 }
  | .id => { s with idValue := "#" ++ p.2, order := 2 }
  | .«class» => { s with classValues := s.classValues ++ ["." ++ p.2], order := 3 }
  | .attr => { s with attrValues := s.attrValues ++ ["[" ++ p.2 ++ "]"], order := 4 }
  | .pseudoClass =>
      { s with pseudoClassValues := s.pseudoClassValues ++ [":" ++ p.2], order := 5 }
  | .pseudoElement => { s with pseudoElementValue := "::" ++ p.2, order := 6 }


/-- The single-occurrence precondition a category call needs to pass
`ensureSingle`: the corresponding stored field is still falsy. -/
def singleOK (s : SimpleSelector) : Category → Prop
  | .element => s.elementValue = ""
  | .id => s.idValue = ""
  | .pseudoElement => s.pseudoElementValue = ""
  | _ => True

/-- The fragment `cssSelectorBuilder.element('div')` evaluates to. -/
def divFragment : SimpleSelector := { newSelector with elementValue := "div", order := 1 }

/-- The fragment `cssSelectorBuilder.class('x')` evaluates to. -/
def dotXFragment : SimpleSelector :=
  { newSelector with classValues := [".x"], order := 3 }

/-- A fragment from `element('div').id('main')`: both singleton fields set,
current rank 2. -/
def divMainFragment : SimpleSelector :=
  { newSelector with elementValue := "div", idValue := "#main", order := 2 }

/-- `cssSelectorBuilder.element('a')` as a Selector value. -/
def selA : Selector := Selector.simple { newSelector with elementValue := "a", order := 1 }

/-- `cssSelectorBuilder.element('b')` as a Selector value. -/
def selB : Selector := Selector.simple { newSelector with elementValue := "b", order := 1 }

/-- `cssSelectorBuilder.element('c')` as a Selector value. -/
def selC : Selector := Selector.simple { newSelector with elementValue := "c", order := 1 }

/-- The chain of the claim's example:
`element('div').id('main').class('a').class('b').attr('x').pseudoClass('hover').pseudoElement('before')`. -/
def exampleChain : List (Category × String) :=
  [(.element, "div"), (.id, "main"), (.«class», "a"), (.«class», "b"),
   (.attr, "x"), (.pseudoClass, "hover"), (.pseudoElement, "before")]

/-- The stored field checked by `ensureSingle` for each single-occurrence
category. -/
def singletonField (s : SimpleSelector) : Category → String
  | .element => s.elementValue
  | .id => s.idValue
  | .pseudoElement => s.pseudoElementValue
  | _ => ""

/-- `function Rectangle(width, height)`: stores the two arguments as the
`width` and `height` fields and installs a `getArea` method returning
`this.width * this.height`.  JavaScript numerics are modelled as exact
integers; the claim is structural (fields exposed, area is the product). -/
structure Rectangle where
  width : Int
  height : Int

/-- The `getArea` method installed by the `Rectangle` constructor. -/
def Rectangle.getArea (r : Rectangle) : Int := r.width * r.height


/-!
The JSON collaborators.  The source's `getJSON` and `fromJSON` delegate to the
platform's `JSON.stringify`, `JSON.parse` and `Object.setPrototypeOf`, which
are not part of the repository; they are modelled below.  JavaScript strings
are modelled as `List Char`, JSON numbers as exact integers (IEEE-754 double
formatting is out of scope of the round-trip claim).
-/

/-!
Modelled from the spec: the plain structured (JSON-representable) values
the serializer/deserializer pair handles — null, booleans, numbers, strings,
arrays and objects (ordered key/value members).
-/
mutual
inductive Json where
  | null : Json
  | bool (b : Bool) : Json
  | num (n : Int) : Json
  | str (s : List Char) : Json
  | arr (elements : JsonList) : Json
  | obj (members : JsonObj) : Json
inductive JsonList where
  | nil : JsonList
  | cons (hd : Json) (tl : JsonList) : JsonList
inductive JsonObj where
  | nil : JsonObj
  | cons (key : List Char) (value : Json) (tl : JsonObj) : JsonObj
end

def digitChar (d : Nat) : Char := Char.ofNat (48 + d)

def hexChar (d : Nat) : Char :=
  if d < 10 then Char.ofNat (48 + d) else Char.ofNat (87 + d)

def serNat (n : Nat) : List Char :=
  if n = 0 then ['0'] else ((Nat.digits 10 n).reverse).map digitChar

def serInt : Int → List Char
  | .ofNat m => serNat m
  | .negSucc m => '-' :: serNat (m + 1)

def serChar (c : Char) : List Char :=
  if c = '\"' then ['\\', '\"']
  else if c = '\\' then ['\\', '\\']
  else if c.toNat < 32 then
    ['\\', 'u', '0', '0', hexChar (c.toNat / 16), hexChar (c.toNat % 16)]
  else [c]

def serStrBody : List Char → List Char
  | [] => []
  | c :: cs => serChar c ++ serStrBody cs

def serStr (s : List Char) : List Char := '\"' :: (serStrBody s ++ ['\"'])

/-!
Modelled from the spec: `JSON.stringify`'s text encoding — `null`,
`true`/`false`, decimal integers, quoted strings with `\x5c` and `\x22`
escaped and control characters emitted as `\x5cu00XX` hex escapes,
comma-separated bracketed arrays, and comma-separated braced objects with
quoted keys.
-/
/-- The keyword spelled for a serialized `null`. -/
def nullChars : List Char := "null".data

/-- The keyword spelled for a serialized `true`. -/
def trueChars : List Char := "true".data

/-- The keyword spelled for a serialized `false`. -/
def falseChars : List Char := "false".data

mutual
def serJson : Json → List Char
  | .null => nullChars
  | .bool true => trueChars
  | .bool false => falseChars
  | .num n => serInt n
  | .str s => serStr s
  | .arr xs => '[' :: (serList xs ++ [']'])
  | .obj ms => '\x7b' :: (serObj ms ++ ['\x7d'])
def serList : JsonList → List Char
  | .nil => []
  | .cons v .nil => serJson v
  | .cons v (.cons w tl) => serJson v ++ ',' :: serList (.cons w tl)
def serObj : JsonObj → List Char
  | .nil => []
  | .cons k v .nil => serStr k ++ ':' :: serJson v
  | .cons k v (.cons k2 v2 tl) =>
      serStr k ++ ':' :: serJson v ++ ',' :: serObj (.cons k2 v2 tl)
end

def isDigitC (c : Char) : Bool := 48 ≤ c.toNat && c.toNat ≤ 57

def hexVal? (c : Char) : Option Nat :=
  if 48 ≤ c.toNat ∧ c.toNat ≤ 57 then some (c.toNat - 48)
  else if 97 ≤ c.toNat ∧ c.toNat ≤ 102 then some (c.toNat - 87)
  else if 65 ≤ c.toNat ∧ c.toNat ≤ 70 then some (c.toNat - 55)
  else none

def spanDigits : List Char → List Char × List Char
  | [] => ([], [])
  | c :: cs =>
    if isDigitC c then
      let p := spanDigits cs
      (c :: p.1, p.2)
    else ([], c :: cs)

def digitsVal (l : List Char) : Nat :=
  l.foldl (fun a c => 10 * a + (c.toNat - 48)) 0

def parseStrBody : Nat → List Char → Option (List Char × List Char)
  | 0, _ => none
  | _ + 1, [] => none
  | fuel + 1, c :: rest =>
    if c = '\"' then some ([], rest)
    else if c = '\\' then
      match rest with
      | '\"' :: r => (parseStrBody fuel r).map (fun p => ('\"' :: p.1, p.2))
      | '\\' :: r => (parseStrBody fuel r).map (fun p => ('\\' :: p.1, p.2))
      | 'u' :: a :: b :: c2 :: d :: r =>
        match hexVal? a, hexVal? b, hexVal? c2, hexVal? d with
        | some x1, some x2, some x3, some x4 =>
          (parseStrBody fuel r).map
            (fun p => (Char.ofNat (((x1 * 16 + x2) * 16 + x3) * 16 + x4) :: p.1, p.2))
        | _, _, _, _ => none
      | _ => none
    else (parseStrBody fuel rest).map (fun p => (c :: p.1, p.2))

def parseNull : List Char → Option (Json × List Char)
  | 'u' :: 'l' :: 'l' :: r => some (.null, r)
  | _ => none

def parseTrue : List Char → Option (Json × List Char)
  | 'r' :: 'u' :: 'e' :: r => some (.bool true, r)
  | _ => none

def parseFalse : List Char → Option (Json × List Char)
  | 'a' :: 'l' :: 's' :: 'e' :: r => some (.bool false, r)
  | _ => none

def parseNeg (rest : List Char) : Option (Json × List Char) :=
  if (spanDigits rest).1 = [] then none
  else some (.num (-(digitsVal (spanDigits rest).1 : Int)), (spanDigits rest).2)

def parseArrTail
    (pl : List Char → Option (JsonList × List Char)) :
    List Char → Option (Json × List Char)
  | ']' :: r => some (.arr .nil, r)
  | other => (pl other).map (fun p => (.arr p.1, p.2))

def parseObjTail
    (po : List Char → Option (JsonObj × List Char)) :
    List Char → Option (Json × List Char)
  | '\x7d' :: r => some (.obj .nil, r)
  | other => (po other).map (fun p => (.obj p.1, p.2))

/-- Modelled from the spec: one step of `JSON.parse`'s recursive descent for
a value, dispatching on the first character; the recursive occurrences are
passed in as parameters.  The model is lenient where `JSON.parse` would
reject (no whitespace skipping, raw control characters accepted inside
strings); the round-trip claim only exercises serializer output, which has
neither. -/
def parseValBody
    (psb : List Char → Option (List Char × List Char))
    (pl : List Char → Option (JsonList × List Char))
    (po : List Char → Option (JsonObj × List Char)) :
    List Char → Option (Json × List Char)
  | [] => none
  | c :: rest =>
    if c = 'n' then parseNull rest
    else if c = 't' then parseTrue rest
    else if c = 'f' then parseFalse rest
    else if c = '\"' then (psb rest).map (fun p => (.str p.1, p.2))
    else if c = '-' then parseNeg rest
    else if c = '[' then parseArrTail pl rest
    else if c = '\x7b' then parseObjTail po rest
    else if isDigitC c then
      some (.num ((digitsVal (spanDigits (c :: rest)).1 : Int)),
        (spanDigits (c :: rest)).2)
    else none

def listAfterVal
    (pl : List Char → Option (JsonList × List Char)) (v : Json) :
    List Char → Option (JsonList × List Char)
  | ',' :: r2 => (pl r2).map (fun p => (JsonList.cons v p.1, p.2))
  | ']' :: r2 => some (JsonList.cons v .nil, r2)
  | _ => none

def parseListElsBody
    (pv : List Char → Option (Json × List Char))
    (pl : List Char → Option (JsonList × List Char))
    (input : List Char) : Option (JsonList × List Char) :=
  match pv input with
  | none => none
  | some (v, r) => listAfterVal pl v r

def objAfterVal
    (po : List Char → Option (JsonObj × List Char)) (k : List Char) (v : Json) :
    List Char → Option (JsonObj × List Char)
  | ',' :: r4 => (po r4).map (fun p => (JsonObj.cons k v p.1, p.2))
  | '\x7d' :: r4 => some (JsonObj.cons k v .nil, r4)
  | _ => none

def objAfterKey
    (pv : List Char → Option (Json × List Char))
    (po : List Char → Option (JsonObj × List Char)) (k : List Char) :
    List Char → Option (JsonObj × List Char)
  | ':' :: r2 =>
    (match pv r2 with
     | none => none
     | some (v, r3) => objAfterVal po k v r3)
  | _ => none

def parseObjElsBody
    (psb : List Char → Option (List Char × List Char))
    (pv : List Char → Option (Json × List Char))
    (po : List Char → Option (JsonObj × List Char)) :
    List Char → Option (JsonObj × List Char)
  | '\"' :: r0 =>
    (match psb r0 with
     | none => none
     | some (k, r1) => objAfterKey pv po k r1)
  | _ => none

/-!
Modelled from the spec: `JSON.parse`'s recursive descent, indexed by a
fuel bound on recursion depth (any fuel past the input length is enough).
-/
mutual
def parseVal : Nat → List Char → Option (Json × List Char)
  | 0, _ => none
  | fuel + 1, input =>
      parseValBody (parseStrBody fuel) (parseListEls fuel) (parseObjEls fuel) input
def parseListEls : Nat → List Char → Option (JsonList × List Char)
  | 0, _ => none
  | fuel + 1, input => parseListElsBody (parseVal fuel) (parseListEls fuel) input
def parseObjEls : Nat → List Char → Option (JsonObj × List Char)
  | 0, _ => none
  | fuel + 1, input =>
      parseObjElsBody (parseStrBody fuel) (parseVal fuel) (parseObjEls fuel) input
end

mutual
def sizeJ : Json → Nat
  | .null => 1
  | .bool _ => 1
  | .num _ => 1
  | .str s => s.length + 2
  | .arr xs => 1 + sizeL xs
  | .obj ms => 1 + sizeO ms
def sizeL : JsonList → Nat
  | .nil => 1
  | .cons v tl => sizeJ v + sizeL tl
def sizeO : JsonObj → Nat
  | .nil => 1
  | .cons k v tl => k.length + 2 + sizeJ v + sizeO tl
end


/-- The next character of the remaining input is not a decimal digit (so a
number token before it parses back without absorbing extra characters). -/
def noDigitHead : List Char → Prop
  | [] => True
  | c :: _ => isDigitC c = false

/-- Modelled from the spec: `JSON.parse(s)` — parse one value spanning the
whole input, rejecting trailing characters. -/
def parseJSON (s : List Char) : Option Json :=
  match parseVal (s.length + 1) s with
  | some (v, []) => some v
  | _ => none

/-- `getJSON(obj) = JSON.stringify(obj)` (the serialization itself is
modelled, see `serJson`). -/
def getJSON (v : Json) : List Char := serJson v

/-- The error kinds `fromJSON` can raise: `Object.setPrototypeOf`'s
`TypeError` on a null receiver, and `JSON.parse`'s `SyntaxError`. -/
inductive JsError where
  | typeError : JsError
  | syntaxError : JsError

/-- What `fromJSON` returns: either a primitive value (no prototype can be
attached to it) or an object/array value carrying the attached prototype
(capability set) `P`. -/
inductive JsValue (P : Type) where
  | prim (v : Json) : JsValue P
  | objWithProto (v : Json) (proto : P) : JsValue P

/-- Modelled from the spec (ECMAScript `Object.setPrototypeOf`): throws
`TypeError` when the receiver is `null`; returns non-object receivers
(booleans, numbers, strings) unchanged without attaching the prototype;
attaches the prototype to objects and arrays. -/
def setPrototypeOf {P : Type} (v : Json) (proto : P) : Except JsError (JsValue P) :=
  match v with
  | .null => .error .typeError
  | .arr xs => .ok (.objWithProto (.arr xs) proto)
  | .obj ms => .ok (.objWithProto (.obj ms) proto)
  | other => .ok (.prim other)

/-- `fromJSON(proto, json)`: `JSON.parse` the text, then
`Object.setPrototypeOf(obj, proto)` (both modelled above). -/
def fromJSON {P : Type} (proto : P) (json : List Char) : Except JsError (JsValue P) :=
  match parseJSON json with
  | none => .error .syntaxError
  | some v => setPrototypeOf v proto


theorem applySpecOp_order (s : SimpleSelector) (p : Category × String) :
    (applySpecOp s p).order = p.1.rank := by
  obtain ⟨c, v⟩ := p
  cases c <;> rfl

theorem applySpecOp_elementValue (s : SimpleSelector) (p : Category × String) :
    (applySpecOp s p).elementValue =
      if p.1 = .element then p.2 else s.elementValue := by
  obtain ⟨c, v⟩ := p
  cases c <;> simp [applySpecOp]

theorem applySpecOp_idValue (s : SimpleSelector) (p : Category × String) :
    (applySpecOp s p).idValue =
      if p.1 = .id then "#" ++ p.2 else s.idValue := by
  obtain ⟨c, v⟩ := p
  cases c <;> simp [applySpecOp]

theorem applySpecOp_pseudoElementValue (s : SimpleSelector) (p : Category × String) :
    (applySpecOp s p).pseudoElementValue =
      if p.1 = .pseudoElement then "::" ++ p.2 else s.pseudoElementValue := by
  obtain ⟨c, v⟩ := p
  cases c <;> simp [applySpecOp]

theorem applySpecOp_classValues (s : SimpleSelector) (p : Category × String) :
    (applySpecOp s p).classValues =
      if p.1 = .«class» then s.classValues ++ ["." ++ p.2] else s.classValues := by
  obtain ⟨c, v⟩ := p
  cases c <;> simp [applySpecOp]

theorem applySpecOp_attrValues (s : SimpleSelector) (p : Category × String) :
    (applySpecOp s p).attrValues =
      if p.1 = .attr then s.attrValues ++ ["[" ++ p.2 ++ "]"] else s.attrValues := by
  obtain ⟨c, v⟩ := p
  cases c <;> simp [applySpecOp]

theorem applySpecOp_pseudoClassValues (s : SimpleSelector) (p : Category × String) :
    (applySpecOp s p).pseudoClassValues =
      if p.1 = .pseudoClass then s.pseudoClassValues ++ [":" ++ p.2]
      else s.pseudoClassValues := by
  obtain ⟨c, v⟩ := p
  cases c <;> simp [applySpecOp]

namespace SimpleSelector

theorem element_success (s : SimpleSelector) (v : String)
    (h1 : s.order ≤ 1) (h2 : s.elementValue = "") :
    s.element v = ({ s with order := 1 },
      Except.ok { s with elementValue := v, order := 1 }) := by
  rw [element, ensureOrder, if_neg (by omega)]
  simp [ensureSingle, truthy, h2, clone]

theorem element_single_fail (s : SimpleSelector) (v : String)
    (h1 : s.order ≤ 1) (h2 : truthy s.elementValue) :
    s.element v = ({ s with order := 1 }, Except.error uniquenessMessage) := by
  rw [element, ensureOrder, if_neg (by omega)]
  simp only [ensureSingle]
  rw [if_pos h2]

theorem element_order_fail (s : SimpleSelector) (v : String) (h : 1 < s.order) :
    s.element v = (s, Except.error orderingMessage) := by
  rw [element, ensureOrder, if_pos h]

theorem element_receiver (s : SimpleSelector) (v : String) :
    (s.element v).1 = s ∨ (s.element v).1 = { s with order := 1 } := by
  by_cases hlt : 1 < s.order
  · rw [element, ensureOrder, if_pos hlt]
    exact Or.inl rfl
  · rw [element, ensureOrder, if_neg hlt]
    simp only [ensureSingle]
    by_cases h2 : truthy s.elementValue
    · rw [if_pos h2]
      exact Or.inr rfl
    · rw [if_neg h2]
      exact Or.inr rfl

theorem element_receiver_of_ok (s : SimpleSelector) (v : String)
    (next : SimpleSelector) (h : (s.element v).2 = Except.ok next) :
    (s.element v).1 = { s with order := 1 } := by
  by_cases hlt : 1 < s.order
  · rw [element, ensureOrder, if_pos hlt] at h
    exact absurd h (by simp)
  · rw [element, ensureOrder, if_neg hlt]
    simp only [ensureSingle]
    by_cases h2 : truthy s.elementValue
    · rw [if_pos h2]
    · rw [if_neg h2]

theorem id_success (s : SimpleSelector) (v : String)
    (h1 : s.order ≤ 2) (h2 : s.idValue = "") :
    s.id v = ({ s with order := 2 },
      Except.ok { s with idValue := "#" ++ v, order := 2 }) := by
  rw [id, ensureOrder, if_neg (by omega)]
  simp [ensureSingle, truthy, h2, clone]

theorem id_single_fail (s : SimpleSelector) (v : String)
    (h1 : s.order ≤ 2) (h2 : truthy s.idValue) :
    s.id v = ({ s with order := 2 }, Except.error uniquenessMessage) := by
  rw [id, ensureOrder, if_neg (by omega)]
  simp only [ensureSingle]
  rw [if_pos h2]

theorem id_order_fail (s : SimpleSelector) (v : String) (h : 2 < s.order) :
    s.id v = (s, Except.error orderingMessage) := by
  rw [id, ensureOrder, if_pos h]

theorem id_receiver (s : SimpleSelector) (v : String) :
    (s.id v).1 = s ∨ (s.id v).1 = { s with order := 2 } := by
  by_cases hlt : 2 < s.order
  · rw [id, ensureOrder, if_pos hlt]
    exact Or.inl rfl
  · rw [id, ensureOrder, if_neg hlt]
    simp only [ensureSingle]
    by_cases h2 : truthy s.idValue
    · rw [if_pos h2]
      exact Or.inr rfl
    · rw [if_neg h2]
      exact Or.inr rfl

theorem id_receiver_of_ok (s : SimpleSelector) (v : String)
    (next : SimpleSelector) (h : (s.id v).2 = Except.ok next) :
    (s.id v).1 = { s with order := 2 } := by
  by_cases hlt : 2 < s.order
  · rw [id, ensureOrder, if_pos hlt] at h
    exact absurd h (by simp)
  · rw [id, ensureOrder, if_neg hlt]
    simp only [ensureSingle]
    by_cases h2 : truthy s.idValue
    · rw [if_pos h2]
    · rw [if_neg h2]

theorem class_success (s : SimpleSelector) (v : String)
    (h1 : s.order ≤ 3) :
    s.«class» v = ({ s with order := 3 },
      Except.ok { s with classValues := s.classValues ++ ["." ++ v], order := 3 }) := by
  rw [«class», ensureOrder, if_neg (by omega)]
  rfl

theorem class_order_fail (s : SimpleSelector) (v : String) (h : 3 < s.order) :
    s.«class» v = (s, Except.error orderingMessage) := by
  rw [«class», ensureOrder, if_pos h]

theorem class_receiver (s : SimpleSelector) (v : String) :
    (s.«class» v).1 = s ∨ (s.«class» v).1 = { s with order := 3 } := by
  by_cases hlt : 3 < s.order
  · rw [«class», ensureOrder, if_pos hlt]
    exact Or.inl rfl
  · rw [«class», ensureOrder, if_neg hlt]
    exact Or.inr rfl

theorem class_receiver_of_ok (s : SimpleSelector) (v : String)
    (next : SimpleSelector) (h : (s.«class» v).2 = Except.ok next) :
    (s.«class» v).1 = { s with order := 3 } := by
  by_cases hlt : 3 < s.order
  · rw [«class», ensureOrder, if_pos hlt] at h
    exact absurd h (by simp)
  · rw [«class», ensureOrder, if_neg hlt]

theorem attr_success (s : SimpleSelector) (v : String)
    (h1 : s.order ≤ 4) :
    s.attr v = ({ s with order := 4 },
      Except.ok { s with attrValues := s.attrValues ++ ["[" ++ v ++ "]"], order := 4 }) := by
  rw [attr, ensureOrder, if_neg (by omega)]
  rfl

theorem attr_order_fail (s : SimpleSelector) (v : String) (h : 4 < s.order) :
    s.attr v = (s, Except.error orderingMessage) := by
  rw [attr, ensureOrder, if_pos h]

theorem attr_receiver (s : SimpleSelector) (v : String) :
    (s.attr v).1 = s ∨ (s.attr v).1 = { s with order := 4 } := by
  by_cases hlt : 4 < s.order
  · rw [attr, ensureOrder, if_pos hlt]
    exact Or.inl rfl
  · rw [attr, ensureOrder, if_neg hlt]
    exact Or.inr rfl

theorem attr_receiver_of_ok (s : SimpleSelector) (v : String)
    (next : SimpleSelector) (h : (s.attr v).2 = Except.ok next) :
    (s.attr v).1 = { s with order := 4 } := by
  by_cases hlt : 4 < s.order
  · rw [attr, ensureOrder, if_pos hlt] at h
    exact absurd h (by simp)
  · rw [attr, ensureOrder, if_neg hlt]

theorem pseudoClass_success (s : SimpleSelector) (v : String)
    (h1 : s.order ≤ 5) :
    s.pseudoClass v = ({ s with order := 5 },
      Except.ok { s with pseudoClassValues := s.pseudoClassValues ++ [":" ++ v], order := 5 }) := by
  rw [pseudoClass, ensureOrder, if_neg (by omega)]
  rfl

theorem pseudoClass_order_fail (s : SimpleSelector) (v : String) (h : 5 < s.order) :
    s.pseudoClass v = (s, Except.error orderingMessage) := by
  rw [pseudoClass, ensureOrder, if_pos h]

theorem pseudoClass_receiver (s : SimpleSelector) (v : String) :
    (s.pseudoClass v).1 = s ∨ (s.pseudoClass v).1 = { s with order := 5 } := by
  by_cases hlt : 5 < s.order
  · rw [pseudoClass, ensureOrder, if_pos hlt]
    exact Or.inl rfl
  · rw [pseudoClass, ensureOrder, if_neg hlt]
    exact Or.inr rfl

theorem pseudoClass_receiver_of_ok (s : SimpleSelector) (v : String)
    (next : SimpleSelector) (h : (s.pseudoClass v).2 = Except.ok next) :
    (s.pseudoClass v).1 = { s with order := 5 } := by
  by_cases hlt : 5 < s.order
  · rw [pseudoClass, ensureOrder, if_pos hlt] at h
    exact absurd h (by simp)
  · rw [pseudoClass, ensureOrder, if_neg hlt]

theorem pseudoElement_success (s : SimpleSelector) (v : String)
    (h1 : s.order ≤ 6) (h2 : s.pseudoElementValue = "") :
    s.pseudoElement v = ({ s with order := 6 },
      Except.ok { s with pseudoElementValue := "::" ++ v, order := 6 }) := by
  rw [pseudoElement, ensureOrder, if_neg (by omega)]
  simp [ensureSingle, truthy, h2, clone]

theorem pseudoElement_single_fail (s : SimpleSelector) (v : String)
    (h1 : s.order ≤ 6) (h2 : truthy s.pseudoElementValue) :
    s.pseudoElement v = ({ s with order := 6 }, Except.error uniquenessMessage) := by
  rw [pseudoElement, ensureOrder, if_neg (by omega)]
  simp only [ensureSingle]
  rw [if_pos h2]

theorem pseudoElement_order_fail (s : SimpleSelector) (v : String) (h : 6 < s.order) :
    s.pseudoElement v = (s, Except.error orderingMessage) := by
  rw [pseudoElement, ensureOrder, if_pos h]

theorem pseudoElement_receiver (s : SimpleSelector) (v : String) :
    (s.pseudoElement v).1 = s ∨ (s.pseudoElement v).1 = { s with order := 6 } := by
  by_cases hlt : 6 < s.order
  · rw [pseudoElement, ensureOrder, if_pos hlt]
    exact Or.inl rfl
  · rw [pseudoElement, ensureOrder, if_neg hlt]
    simp only [ensureSingle]
    by_cases h2 : truthy s.pseudoElementValue
    · rw [if_pos h2]
      exact Or.inr rfl
    · rw [if_neg h2]
      exact Or.inr rfl

theorem pseudoElement_receiver_of_ok (s : SimpleSelector) (v : String)
    (next : SimpleSelector) (h : (s.pseudoElement v).2 = Except.ok next) :
    (s.pseudoElement v).1 = { s with order := 6 } := by
  by_cases hlt : 6 < s.order
  · rw [pseudoElement, ensureOrder, if_pos hlt] at h
    exact absurd h (by simp)
  · rw [pseudoElement, ensureOrder, if_neg hlt]
    simp only [ensureSingle]
    by_cases h2 : truthy s.pseudoElementValue
    · rw [if_pos h2]
    · rw [if_neg h2]

end SimpleSelector

/-- A category call whose rank is admissible and whose single-occurrence
precondition holds succeeds: the receiver keeps its parts but its `order`
becomes the category's rank (the `ensureOrder` assignment), and the returned
fragment is the clone with the new part recorded. -/
theorem applyCategory_success (s : SimpleSelector) (c : Category) (v : String)
    (horder : s.order ≤ c.rank) (hsingle : singleOK s c) :
    applyCategory s c v =
      ({ s with order := c.rank }, Except.ok (applySpecOp s (c, v))) := by
  cases c
  · exact s.element_success v horder hsingle
  · exact s.id_success v horder hsingle
  · exact s.class_success v horder
  · exact s.attr_success v horder
  · exact s.pseudoClass_success v horder
  · exact s.pseudoElement_success v horder hsingle

/-- A category call whose rank is strictly below the receiver's current
`order` throws the ordering error from `ensureOrder`, before the clone and
before any uniqueness check, leaving the receiver untouched. -/
theorem applyCategory_order_fail (s : SimpleSelector) (c : Category) (v : String)
    (h : c.rank < s.order) :
    applyCategory s c v = (s, Except.error orderingMessage) := by
  cases c
  · exact s.element_order_fail v h
  · exact s.id_order_fail v h
  · exact s.class_order_fail v h
  · exact s.attr_order_fail v h
  · exact s.pseudoClass_order_fail v h
  · exact s.pseudoElement_order_fail v h

/-- Whatever a category call does, the receiver after the call is either
unchanged or differs only in its `order` field. -/
theorem applyCategory_receiver (s : SimpleSelector) (c : Category) (v : String) :
    (applyCategory s c v).1 = s ∨
      (applyCategory s c v).1 = { s with order := c.rank } := by
  cases c
  · exact s.element_receiver v
  · exact s.id_receiver v
  · exact s.class_receiver v
  · exact s.attr_receiver v
  · exact s.pseudoClass_receiver v
  · exact s.pseudoElement_receiver v

/-- When a category call returns normally, the receiver after the call is the
receiver before it with `order` overwritten by the category's rank. -/
theorem applyCategory_receiver_of_ok (s : SimpleSelector) (c : Category)
    (v : String) (next : SimpleSelector)
    (h : (applyCategory s c v).2 = Except.ok next) :
    (applyCategory s c v).1 = { s with order := c.rank } := by
  cases c
  · exact s.element_receiver_of_ok v next h
  · exact s.id_receiver_of_ok v next h
  · exact s.class_receiver_of_ok v next h
  · exact s.attr_receiver_of_ok v next h
  · exact s.pseudoClass_receiver_of_ok v next h
  · exact s.pseudoElement_receiver_of_ok v next h

theorem stringify_set_order (s : SimpleSelector) (n : Nat) :
    SimpleSelector.stringify { s with order := n } = s.stringify := rfl


theorem ranksOf_cons (c : Category) (v : String) (rest : List (Category × String)) :
    ranksOf ((c, v) :: rest) = c.rank :: ranksOf rest := rfl

theorem nondecreasing_cons₂ (a b : Nat) (l : List Nat) :
    nondecreasing (a :: b :: l) = (decide (a ≤ b) && nondecreasing (b :: l)) := rfl

theorem nondecreasing_zero_cons (l : List Nat) :
    nondecreasing (0 :: l) = nondecreasing l := by
  cases l <;> simp [nondecreasing]

theorem countCat_cons (c' c : Category) (v : String)
    (rest : List (Category × String)) :
    countCat c' ((c, v) :: rest) = (if c = c' then 1 else 0) + countCat c' rest := by
  by_cases hc : c = c' <;> simp [countCat, List.filter_cons, hc, Nat.add_comm]

theorem valuesOf_cons (c' c : Category) (v : String)
    (rest : List (Category × String)) :
    valuesOf c' ((c, v) :: rest) =
      if c = c' then v :: valuesOf c' rest else valuesOf c' rest := by
  by_cases hc : c = c' <;> simp [valuesOf, hc]

theorem valuesOf_length (c : Category) (ops : List (Category × String)) :
    (valuesOf c ops).length = countCat c ops := by
  induction ops with
  | nil => rfl
  | cons p rest ih =>
    obtain ⟨c', v⟩ := p
    by_cases hc : c' = c <;> simp [valuesOf_cons, countCat_cons, hc, ih] <;> omega

/-- Running a chain whose ranks never decrease below the running fragment's
`order` and whose single-occurrence categories are still unset succeeds and
accumulates exactly the clone-then-set effect of every call. -/
theorem runChain_ok (ops : List (Category × String)) : ∀ (s : SimpleSelector),
    nondecreasing (s.order :: ranksOf ops) = true →
    (1 ≤ countCat .element ops → s.elementValue = "") →
    (1 ≤ countCat .id ops → s.idValue = "") →
    (1 ≤ countCat .pseudoElement ops → s.pseudoElementValue = "") →
    countCat .element ops ≤ 1 →
    countCat .id ops ≤ 1 →
    countCat .pseudoElement ops ≤ 1 →
    runChain s ops = Except.ok (ops.foldl applySpecOp s) := by
  induction ops with
  | nil =>
    intro s _ _ _ _ _ _ _
    rfl
  | cons p rest ih =>
    obtain ⟨c, v⟩ := p
    intro s hnd hE hI hP hcE hcI hcP
    rw [ranksOf_cons, nondecreasing_cons₂, Bool.and_eq_true, decide_eq_true_eq] at hnd
    obtain ⟨hord, hnd'⟩ := hnd
    have hsingle : singleOK s c := by
      cases c <;> simp only [singleOK]
      · exact hE (by rw [countCat_cons]; simp)
      · exact hI (by rw [countCat_cons]; simp)
      · exact hP (by rw [countCat_cons]; simp)
    rw [runChain, applyCategory_success s c v hord hsingle, List.foldl_cons]
    apply ih (applySpecOp s (c, v))
    · rw [applySpecOp_order]
      exact hnd'
    · intro hge
      rw [applySpecOp_elementValue]
      rw [countCat_cons] at hcE hE
      by_cases hc : c = Category.element
      · simp [hc] at hcE
        omega
      · simp only [hc, if_false]
        simp only [hc, if_false, Nat.zero_add] at hcE hE
        exact hE hge
    · intro hge
      rw [applySpecOp_idValue]
      rw [countCat_cons] at hcI hI
      by_cases hc : c = Category.id
      · simp [hc] at hcI
        omega
      · simp only [hc, if_false]
        simp only [hc, if_false, Nat.zero_add] at hcI hI
        exact hI hge
    · intro hge
      rw [applySpecOp_pseudoElementValue]
      rw [countCat_cons] at hcP hP
      by_cases hc : c = Category.pseudoElement
      · simp [hc] at hcP
        omega
      · simp only [hc, if_false]
        simp only [hc, if_false, Nat.zero_add] at hcP hP
        exact hP hge
    · rw [countCat_cons] at hcE
      omega
    · rw [countCat_cons] at hcI
      omega
    · rw [countCat_cons] at hcP
      omega

/-- The field content of the accumulated clone-then-set effects: the last
set value for each single-occurrence field, the appended decorated tokens in
call order for each multi-occurrence list. -/

theorem foldl_elementValue (ops : List (Category × String)) :
    ∀ s : SimpleSelector,
    (ops.foldl applySpecOp s).elementValue
      = (valuesOf .element ops).foldl (fun _ v => v) s.elementValue := by
  induction ops with
  | nil =>
    intro s
    rfl
  | cons p rest ih =>
    obtain ⟨c, v⟩ := p
    intro s
    rw [List.foldl_cons, ih (applySpecOp s (c, v)), applySpecOp_elementValue, valuesOf_cons]
    by_cases hc : c = Category.element <;> simp [hc]

theorem foldl_idValue (ops : List (Category × String)) :
    ∀ s : SimpleSelector,
    (ops.foldl applySpecOp s).idValue
      = (valuesOf .id ops).foldl (fun _ v => "#" ++ v) s.idValue := by
  induction ops with
  | nil =>
    intro s
    rfl
  | cons p rest ih =>
    obtain ⟨c, v⟩ := p
    intro s
    rw [List.foldl_cons, ih (applySpecOp s (c, v)), applySpecOp_idValue, valuesOf_cons]
    by_cases hc : c = Category.id <;> simp [hc]

theorem foldl_pseudoElementValue (ops : List (Category × String)) :
    ∀ s : SimpleSelector,
    (ops.foldl applySpecOp s).pseudoElementValue
      = (valuesOf .pseudoElement ops).foldl (fun _ v => "::" ++ v) s.pseudoElementValue := by
  induction ops with
  | nil =>
    intro s
    rfl
  | cons p rest ih =>
    obtain ⟨c, v⟩ := p
    intro s
    rw [List.foldl_cons, ih (applySpecOp s (c, v)), applySpecOp_pseudoElementValue, valuesOf_cons]
    by_cases hc : c = Category.pseudoElement <;> simp [hc]

theorem foldl_classValues (ops : List (Category × String)) :
    ∀ s : SimpleSelector,
    (ops.foldl applySpecOp s).classValues
      = s.classValues ++ (valuesOf .«class» ops).map (decorate .«class») := by
  induction ops with
  | nil =>
    intro s
    simp [valuesOf]
  | cons p rest ih =>
    obtain ⟨c, v⟩ := p
    intro s
    rw [List.foldl_cons, ih (applySpecOp s (c, v)), applySpecOp_classValues, valuesOf_cons]
    by_cases hc : c = Category.«class» <;> simp [hc, decorate]

theorem foldl_attrValues (ops : List (Category × String)) :
    ∀ s : SimpleSelector,
    (ops.foldl applySpecOp s).attrValues
      = s.attrValues ++ (valuesOf .attr ops).map (decorate .attr) := by
  induction ops with
  | nil =>
    intro s
    simp [valuesOf]
  | cons p rest ih =>
    obtain ⟨c, v⟩ := p
    intro s
    rw [List.foldl_cons, ih (applySpecOp s (c, v)), applySpecOp_attrValues, valuesOf_cons]
    by_cases hc : c = Category.attr <;> simp [hc, decorate]

theorem foldl_pseudoClassValues (ops : List (Category × String)) :
    ∀ s : SimpleSelector,
    (ops.foldl applySpecOp s).pseudoClassValues
      = s.pseudoClassValues ++ (valuesOf .pseudoClass ops).map (decorate .pseudoClass) := by
  induction ops with
  | nil =>
    intro s
    simp [valuesOf]
  | cons p rest ih =>
    obtain ⟨c, v⟩ := p
    intro s
    rw [List.foldl_cons, ih (applySpecOp s (c, v)), applySpecOp_pseudoClassValues, valuesOf_cons]
    by_cases hc : c = Category.pseudoClass <;> simp [hc, decorate]


theorem hash_append_ne_empty (v : String) : "#" ++ v ≠ "" := by
  intro h
  have h2 := congrArg String.length h
  rw [String.length_append, String.length_empty] at h2
  have h3 : ("#" : String).length = 1 := rfl
  omega

/-- Prefixing with `'::'` never yields the empty string. -/
theorem colons_append_ne_empty (v : String) : "::" ++ v ≠ "" := by
  intro h
  have h2 := congrArg String.length h
  rw [String.length_append, String.length_empty] at h2
  have h3 : ("::" : String).length = 2 := rfl
  omega

/-- A group with at most one member renders the same whether written as the
last-set plain value or as the joined decorated-token list. -/
theorem join_single_element (l : List String) (hl : l.length ≤ 1) :
    l.foldl (fun _ v => v) "" = String.join (l.map (decorate .element)) := by
  match l, hl with
  | [], _ => rfl
  | [a], _ => simp [String.join, decorate, String.empty_append]

theorem join_single_id (l : List String) (hl : l.length ≤ 1) :
    l.foldl (fun _ v => "#" ++ v) "" = String.join (l.map (decorate .id)) := by
  match l, hl with
  | [], _ => rfl
  | [a], _ => simp [String.join, decorate, String.empty_append]

theorem join_single_pseudoElement (l : List String) (hl : l.length ≤ 1) :
    l.foldl (fun _ v => "::" ++ v) ""
      = String.join (l.map (decorate .pseudoElement)) := by
  match l, hl with
  | [], _ => rfl
  | [a], _ => simp [String.join, decorate, String.empty_append]

/-- On a valid chain the accumulated fragment stringifies to the
group-by-group concatenation of decorated tokens. -/
theorem stringify_foldl (ops : List (Category × String)) (h : validChain ops) :
    (ops.foldl applySpecOp newSelector).stringify = expectedOutput ops := by
  obtain ⟨hnd, hE, hI, hP⟩ := h
  rw [SimpleSelector.stringify, foldl_elementValue, foldl_idValue,
    foldl_pseudoElementValue, foldl_classValues, foldl_attrValues,
    foldl_pseudoClassValues]
  simp only [newSelector]
  rw [join_single_element _ (by rw [valuesOf_length]; exact hE),
    join_single_id _ (by rw [valuesOf_length]; exact hI),
    join_single_pseudoElement _ (by rw [valuesOf_length]; exact hP),
    expectedOutput]
  simp


theorem nullChars_eq : nullChars = ['n', 'u', 'l', 'l'] := by decide

theorem trueChars_eq : trueChars = ['t', 'r', 'u', 'e'] := by decide

theorem falseChars_eq : falseChars = ['f', 'a', 'l', 's', 'e'] := by decide

theorem parseVal_succ (fuel : Nat) (input : List Char) :
    parseVal (fuel + 1) input =
      parseValBody (parseStrBody fuel) (parseListEls fuel) (parseObjEls fuel) input := by
  rw [parseVal.eq_def]

theorem parseListEls_succ (fuel : Nat) (input : List Char) :
    parseListEls (fuel + 1) input =
      parseListElsBody (parseVal fuel) (parseListEls fuel) input := by
  rw [parseListEls.eq_def]

theorem parseObjEls_succ (fuel : Nat) (input : List Char) :
    parseObjEls (fuel + 1) input =
      parseObjElsBody (parseStrBody fuel) (parseVal fuel) (parseObjEls fuel) input := by
  rw [parseObjEls.eq_def]

theorem toNat_digitChar (d : Nat) (h : d < 10) : (digitChar d).toNat = 48 + d := by
  interval_cases d <;> decide

theorem isDigitC_digitChar (d : Nat) (h : d < 10) : isDigitC (digitChar d) = true := by
  interval_cases d <;> decide

theorem hexVal_hexChar (d : Nat) (h : d < 16) : hexVal? (hexChar d) = some d := by
  interval_cases d <;> decide

theorem digitsVal_append_single (l : List Char) (c : Char) :
    digitsVal (l ++ [c]) = 10 * digitsVal l + (c.toNat - 48) := by
  simp [digitsVal, List.foldl_append]

theorem digitsVal_rev_map (L : List Nat) (h : ∀ d ∈ L, d < 10) :
    digitsVal (L.reverse.map digitChar) = Nat.ofDigits 10 L := by
  induction L with
  | nil => rfl
  | cons d T ih =>
    rw [List.reverse_cons, List.map_append]
    simp only [List.map_cons, List.map_nil]
    rw [digitsVal_append_single, ih (fun x hx => h x (by simp [hx])),
      Nat.ofDigits_cons, toNat_digitChar d (h d (by simp))]
    omega

theorem digitsVal_serNat (n : Nat) : digitsVal (serNat n) = n := by
  rw [serNat]
  by_cases h : n = 0
  · subst h
    decide
  · simp only [h, if_false]
    rw [digitsVal_rev_map _ (fun d hd => @Nat.digits_lt_base 10 n d (by norm_num) hd),
      Nat.ofDigits_digits]

theorem serNat_all_digits (n : Nat) : ∀ c ∈ serNat n, isDigitC c = true := by
  intro c hc
  rw [serNat] at hc
  by_cases h : n = 0
  · simp [h] at hc
    subst hc
    decide
  · simp only [h, if_false, List.mem_map, List.mem_reverse] at hc
    obtain ⟨d, hd, rfl⟩ := hc
    exact isDigitC_digitChar d (Nat.digits_lt_base (by norm_num) hd)

theorem serNat_head (m : Nat) :
    ∃ c t, serNat m = c :: t ∧ isDigitC c = true := by
  rw [serNat]
  by_cases h : m = 0
  · exact ⟨'0', [], by simp [h], by decide⟩
  · simp only [h, if_false]
    have hne : (Nat.digits 10 m).reverse ≠ [] := by
      simp [Nat.digits_ne_nil_iff_ne_zero, h]
    cases hrev : (Nat.digits 10 m).reverse with
    | nil => exact absurd hrev hne
    | cons d L =>
      refine ⟨digitChar d, L.map digitChar, by simp [hrev], ?_⟩
      have hd10 : d < 10 := by
        refine @Nat.digits_lt_base 10 m d (by norm_num) ?_
        rw [← List.mem_reverse, hrev]
        simp
      exact isDigitC_digitChar d hd10

theorem spanDigits_append (ds : List Char) (rest : List Char)
    (hd : ∀ c ∈ ds, isDigitC c = true) (hr : noDigitHead rest) :
    spanDigits (ds ++ rest) = (ds, rest) := by
  induction ds with
  | nil =>
    cases rest with
    | nil => rfl
    | cons c t =>
      simp only [List.nil_append, spanDigits]
      rw [if_neg (by simp [noDigitHead] at hr; simp [hr])]
  | cons c t ih =>
    simp only [List.cons_append, spanDigits, List.append_eq]
    rw [if_pos (hd c (by simp)), ih (fun x hx => hd x (by simp [hx]))]

theorem parseStrBody_quote (f : Nat) (rest : List Char) :
    parseStrBody (f + 1) ('\"' :: rest) = some ([], rest) := rfl

theorem parseStrBody_esc_quote (f : Nat) (r : List Char) :
    parseStrBody (f + 1) ('\\' :: '\"' :: r) =
      (parseStrBody f r).map (fun p => ('\"' :: p.1, p.2)) := rfl

theorem parseStrBody_esc_esc (f : Nat) (r : List Char) :
    parseStrBody (f + 1) ('\\' :: '\\' :: r) =
      (parseStrBody f r).map (fun p => ('\\' :: p.1, p.2)) := rfl

theorem parseStrBody_esc_u (f : Nat) (a b c2 d : Char) (r : List Char) :
    parseStrBody (f + 1) ('\\' :: 'u' :: a :: b :: c2 :: d :: r) =
      (match hexVal? a, hexVal? b, hexVal? c2, hexVal? d with
       | some x1, some x2, some x3, some x4 =>
         (parseStrBody f r).map
           (fun p => (Char.ofNat (((x1 * 16 + x2) * 16 + x3) * 16 + x4) :: p.1, p.2))
       | _, _, _, _ => none) := rfl

theorem parseStrBody_generic (f : Nat) (c : Char) (rest : List Char)
    (h1 : c ≠ '\"') (h2 : c ≠ '\\') :
    parseStrBody (f + 1) (c :: rest) =
      (parseStrBody f rest).map (fun p => (c :: p.1, p.2)) := by
  rw [parseStrBody.eq_def]
  simp only [if_neg h1, if_neg h2]

theorem parseStrBody_ser (s : List Char) : ∀ (fuel : Nat) (rest : List Char),
    s.length + 1 ≤ fuel →
    parseStrBody fuel (serStrBody s ++ '\"' :: rest) = some (s, rest) := by
  induction s with
  | nil =>
    intro fuel rest h
    match fuel, h with
    | f + 1, _ =>
      rw [show serStrBody [] = [] from rfl, List.nil_append, parseStrBody_quote]
  | cons c cs ih =>
    intro fuel rest h
    match fuel, h with
    | f + 1, h =>
      have hfc : cs.length + 1 ≤ f := by
        simp only [List.length_cons] at h
        omega
      rw [serStrBody]
      by_cases h1 : c = '\"'
      · subst h1
        rw [show serChar '\"' = ['\\', '\"'] from rfl]
        simp only [List.cons_append, List.nil_append]
        rw [parseStrBody_esc_quote, ih f rest hfc]
        rfl
      · by_cases h2 : c = '\\'
        · subst h2
          rw [show serChar '\\' = ['\\', '\\'] from rfl]
          simp only [List.cons_append, List.nil_append]
          rw [parseStrBody_esc_esc, ih f rest hfc]
          rfl
        · by_cases h3 : c.toNat < 32
          · rw [show serChar c = ['\\', 'u', '0', '0',
                hexChar (c.toNat / 16), hexChar (c.toNat % 16)] from by
              rw [serChar, if_neg h1, if_neg h2, if_pos h3]]
            simp only [List.cons_append, List.nil_append]
            rw [parseStrBody_esc_u]
            have hhi : c.toNat / 16 < 16 := by omega
            have hlo : c.toNat % 16 < 16 := by omega
            rw [hexVal_hexChar _ hhi, hexVal_hexChar _ hlo]
            simp only [show hexVal? '0' = some 0 from rfl]
            rw [ih f rest hfc]
            have hc : Char.ofNat (c.toNat / 16 * 16 + c.toNat % 16) = c := by
              have heq : c.toNat / 16 * 16 + c.toNat % 16 = c.toNat := by
                omega
              rw [heq, Char.ofNat_toNat]
            simp [hc]
          · rw [show serChar c = [c] from by
                rw [serChar, if_neg h1, if_neg h2, if_neg h3]]
            simp only [List.cons_append, List.nil_append]
            rw [parseStrBody_generic f c _ h1 h2, ih f rest hfc]
            rfl

theorem digit_ne_marks (c : Char) (h : isDigitC c = true) :
    c ≠ 'n' ∧ c ≠ 't' ∧ c ≠ 'f' ∧ c ≠ '\"' ∧ c ≠ '-' ∧ c ≠ '[' ∧ c ≠ '\x7b' := by
  refine ⟨?_, ?_, ?_, ?_, ?_, ?_, ?_⟩ <;>
    exact fun he => by subst he; exact absurd h (by decide)

section
variable (psb : List Char → Option (List Char × List Char))
variable (pl : List Char → Option (JsonList × List Char))
variable (po : List Char → Option (JsonObj × List Char))

theorem parseValBody_null (r : List Char) :
    parseValBody psb pl po ('n' :: 'u' :: 'l' :: 'l' :: r) = some (.null, r) := rfl

theorem parseValBody_true (r : List Char) :
    parseValBody psb pl po ('t' :: 'r' :: 'u' :: 'e' :: r) = some (.bool true, r) := rfl

theorem parseValBody_false (r : List Char) :
    parseValBody psb pl po ('f' :: 'a' :: 'l' :: 's' :: 'e' :: r) =
      some (.bool false, r) := rfl

theorem parseValBody_quote (rest : List Char) :
    parseValBody psb pl po ('\"' :: rest) =
      (psb rest).map (fun p => (Json.str p.1, p.2)) := rfl

theorem parseValBody_minus (rest : List Char) :
    parseValBody psb pl po ('-' :: rest) = parseNeg rest := rfl

theorem parseValBody_arr_empty (r : List Char) :
    parseValBody psb pl po ('[' :: ']' :: r) = some (.arr .nil, r) := rfl

theorem parseValBody_obj_empty (r : List Char) :
    parseValBody psb pl po ('\x7b' :: '\x7d' :: r) = some (.obj .nil, r) := rfl

theorem parseArrTail_cons (c : Char) (rest : List Char) (h : c ≠ ']') :
    parseArrTail pl (c :: rest) =
      (pl (c :: rest)).map (fun p => (Json.arr p.1, p.2)) := by
  rw [parseArrTail.eq_def]
  split
  · next r heq =>
      injection heq with h1 h2
      exact absurd h1 h
  · rfl

theorem parseObjTail_cons (c : Char) (rest : List Char) (h : c ≠ '\x7d') :
    parseObjTail po (c :: rest) =
      (po (c :: rest)).map (fun p => (Json.obj p.1, p.2)) := by
  rw [parseObjTail.eq_def]
  split
  · next r heq =>
      injection heq with h1 h2
      exact absurd h1 h
  · rfl

theorem parseValBody_arr_nonempty (c : Char) (rest : List Char) (h : c ≠ ']') :
    parseValBody psb pl po ('[' :: c :: rest) =
      (pl (c :: rest)).map (fun p => (Json.arr p.1, p.2)) := by
  rw [show parseValBody psb pl po ('[' :: c :: rest)
      = parseArrTail pl (c :: rest) from rfl]
  exact parseArrTail_cons pl c rest h

theorem parseValBody_obj_nonempty (c : Char) (rest : List Char) (h : c ≠ '\x7d') :
    parseValBody psb pl po ('\x7b' :: c :: rest) =
      (po (c :: rest)).map (fun p => (Json.obj p.1, p.2)) := by
  rw [show parseValBody psb pl po ('\x7b' :: c :: rest)
      = parseObjTail po (c :: rest) from rfl]
  exact parseObjTail_cons po c rest h

theorem parseValBody_digit (c : Char) (rest : List Char) (h : isDigitC c = true) :
    parseValBody psb pl po (c :: rest) =
      some (Json.num ((digitsVal (spanDigits (c :: rest)).1 : Int)),
        (spanDigits (c :: rest)).2) := by
  obtain ⟨h1, h2, h3, h4, h5, h6, h7⟩ := digit_ne_marks c h
  rw [parseValBody, if_neg h1, if_neg h2, if_neg h3, if_neg h4, if_neg h5,
    if_neg h6, if_neg h7, if_pos h]

theorem sizeJ_pos (v : Json) : 1 ≤ sizeJ v := by
  cases v <;> simp [sizeJ]

theorem sizeL_pos (xs : JsonList) : 1 ≤ sizeL xs := by
  cases xs with
  | nil => simp [sizeL]
  | cons v tl =>
    have := sizeJ_pos v
    simp [sizeL]
    omega

theorem sizeO_pos (ms : JsonObj) : 1 ≤ sizeO ms := by
  cases ms with
  | nil => simp [sizeO]
  | cons k v tl =>
    simp [sizeO]
    omega

theorem serJson_head (v : Json) : ∃ c t, serJson v = c :: t ∧ c ≠ ']' := by
  cases v with
  | null => exact ⟨'n', ['u', 'l', 'l'], by simp [serJson, nullChars_eq], by decide⟩
  | bool b =>
    cases b
    · exact ⟨'f', ['a', 'l', 's', 'e'], by simp [serJson, falseChars_eq], by decide⟩
    · exact ⟨'t', ['r', 'u', 'e'], by simp [serJson, trueChars_eq], by decide⟩
  | num n =>
    cases n with
    | ofNat m =>
      obtain ⟨c, t, hct, hd⟩ := serNat_head m
      exact ⟨c, t, by simp [serJson, serInt, hct],
        fun he => by subst he; exact absurd hd (by decide)⟩
    | negSucc m => exact ⟨'-', serNat (m + 1), by simp [serJson, serInt], by decide⟩
  | str s =>
    exact ⟨'\"', serStrBody s ++ ['\"'], by simp [serJson, serStr], by decide⟩
  | arr xs => exact ⟨'[', serList xs ++ [']'], by simp [serJson], by decide⟩
  | obj ms => exact ⟨'\x7b', serObj ms ++ ['\x7d'], by simp [serJson], by decide⟩

theorem serList_head (v : Json) (tl : JsonList) :
    ∃ c t, serList (JsonList.cons v tl) = c :: t ∧ c ≠ ']' := by
  obtain ⟨c, t, hct, hne⟩ := serJson_head v
  cases tl with
  | nil => exact ⟨c, t, by simp [serList, hct], hne⟩
  | cons w tl2 =>
    exact ⟨c, t ++ ',' :: serList (.cons w tl2), by simp [serList, hct], hne⟩

theorem parse_ser_master : ∀ fuel : Nat,
    (∀ (v : Json) (rest : List Char), sizeJ v ≤ fuel → noDigitHead rest →
      parseVal fuel (serJson v ++ rest) = some (v, rest)) ∧
    (∀ (xs : JsonList) (rest : List Char), xs ≠ JsonList.nil → sizeL xs ≤ fuel →
      parseListEls fuel (serList xs ++ ']' :: rest) = some (xs, rest)) ∧
    (∀ (ms : JsonObj) (rest : List Char), ms ≠ JsonObj.nil → sizeO ms ≤ fuel →
      parseObjEls fuel (serObj ms ++ '\x7d' :: rest) = some (ms, rest)) := by
  intro fuel
  induction fuel with
  | zero =>
    refine ⟨?_, ?_, ?_⟩
    · intro v rest h _
      have := sizeJ_pos v
      omega
    · intro xs rest _ h
      have := sizeL_pos xs
      omega
    · intro ms rest _ h
      have := sizeO_pos ms
      omega
  | succ f ih =>
    obtain ⟨ihV, ihL, ihO⟩ := ih
    refine ⟨?_, ?_, ?_⟩
    · intro v rest hsz hnd
      rw [parseVal_succ]
      cases v with
      | null =>
        rw [show serJson Json.null = ['n', 'u', 'l', 'l'] from by
          simp [serJson, nullChars_eq]]
        exact parseValBody_null _ _ _ rest
      | bool b =>
        cases b
        · rw [show serJson (Json.bool false) = ['f', 'a', 'l', 's', 'e'] from by
            simp [serJson, falseChars_eq]]
          exact parseValBody_false _ _ _ rest
        · rw [show serJson (Json.bool true) = ['t', 'r', 'u', 'e'] from by
            simp [serJson, trueChars_eq]]
          exact parseValBody_true _ _ _ rest
      | num n =>
        cases n with
        | ofNat m =>
          obtain ⟨c, t, hct, hdig⟩ := serNat_head m
          rw [show serJson (Json.num (Int.ofNat m)) = serNat m from by
            simp [serJson, serInt]]
          rw [hct, List.cons_append, parseValBody_digit _ _ _ c (t ++ rest) hdig]
          rw [show c :: (t ++ rest) = (c :: t) ++ rest from rfl, ← hct,
            spanDigits_append _ _ (serNat_all_digits m) hnd]
          simp [digitsVal_serNat]
        | negSucc m =>
          rw [show serJson (Json.num (Int.negSucc m)) = '-' :: serNat (m + 1) from by
            simp [serJson, serInt]]
          rw [List.cons_append, parseValBody_minus, parseNeg,
            spanDigits_append _ _ (serNat_all_digits (m + 1)) hnd]
          obtain ⟨c, t, hct, _⟩ := serNat_head (m + 1)
          rw [if_neg (by rw [hct]; simp), digitsVal_serNat]
          simp [Int.negSucc_eq]
      | str s =>
        rw [show serJson (Json.str s) = '\"' :: (serStrBody s ++ ['\"']) from by
          simp [serJson, serStr]]
        rw [List.cons_append, parseValBody_quote, List.append_assoc,
          List.singleton_append]
        rw [parseStrBody_ser s f rest (by simp [sizeJ] at hsz; omega)]
        rfl
      | arr xs =>
        cases xs with
        | nil =>
          rw [show serJson (Json.arr .nil) = ['[', ']'] from by
            simp [serJson, serList]]
          exact parseValBody_arr_empty _ _ _ rest
        | cons v tl =>
          obtain ⟨c, t, hct, hcne⟩ := serList_head v tl
          rw [show serJson (Json.arr (.cons v tl))
              = '[' :: (serList (.cons v tl) ++ [']']) from by simp [serJson]]
          rw [List.cons_append, List.append_assoc, List.singleton_append, hct,
            List.cons_append, parseValBody_arr_nonempty _ _ _ c _ hcne,
            ← List.cons_append, ← hct]
          rw [ihL (.cons v tl) rest (by simp) (by simp [sizeJ] at hsz; omega)]
          rfl
      | obj ms =>
        cases ms with
        | nil =>
          rw [show serJson (Json.obj .nil) = ['\x7b', '\x7d'] from by
            simp [serJson, serObj]]
          exact parseValBody_obj_empty _ _ _ rest
        | cons k v tl =>
          rw [show serJson (Json.obj (.cons k v tl))
              = '\x7b' :: (serObj (.cons k v tl) ++ ['\x7d']) from by simp [serJson]]
          have hobj : ∃ t2, serObj (JsonObj.cons k v tl) = '\"' :: t2 := by
            cases tl with
            | nil =>
              exact ⟨(serStrBody k ++ ['\"']) ++ ':' :: serJson v, by
                simp [serObj, serStr]⟩
            | cons k2 v2 tl2 =>
              exact ⟨(serStrBody k ++ ['\"']) ++ ':' :: serJson v
                  ++ ',' :: serObj (.cons k2 v2 tl2), by simp [serObj, serStr]⟩
          obtain ⟨t2, ht2⟩ := hobj
          rw [List.cons_append, List.append_assoc, List.singleton_append, ht2,
            List.cons_append, parseValBody_obj_nonempty _ _ _ '\"' _ (by decide),
            ← List.cons_append, ← ht2]
          rw [ihO (.cons k v tl) rest (by simp)
            (by simp [sizeJ] at hsz; omega)]
          rfl
    · intro xs rest hne hsz
      cases xs with
      | nil => exact absurd rfl hne
      | cons v tl =>
        rw [parseListEls_succ, parseListElsBody]
        cases tl with
        | nil =>
          have hv : sizeJ v ≤ f := by
            simp [sizeL] at hsz
            omega
          rw [show serList (JsonList.cons v .nil) = serJson v from by simp [serList]]
          rw [ihV v (']' :: rest) hv (by simp only [noDigitHead]; decide)]
          rfl
        | cons w tl2 =>
          have hv : sizeJ v ≤ f := by
            simp [sizeL] at hsz
            have h1 := sizeL_pos tl2
            have h2 := sizeJ_pos w
            omega
          have hl : sizeL (JsonList.cons w tl2) ≤ f := by
            simp [sizeL] at hsz ⊢
            have h1 := sizeJ_pos v
            omega
          rw [show serList (JsonList.cons v (.cons w tl2))
              = serJson v ++ ',' :: serList (.cons w tl2) from by simp [serList]]
          rw [List.append_assoc, List.cons_append,
            ihV v (',' :: (serList (.cons w tl2) ++ ']' :: rest)) hv
              (by simp only [noDigitHead]; decide)]
          show listAfterVal (parseListEls f) v
            (',' :: (serList (JsonList.cons w tl2) ++ ']' :: rest)) = _
          rw [show listAfterVal (parseListEls f) v
              (',' :: (serList (JsonList.cons w tl2) ++ ']' :: rest))
            = (parseListEls f (serList (JsonList.cons w tl2) ++ ']' :: rest)).map
                (fun p => (JsonList.cons v p.1, p.2)) from rfl]
          rw [ihL (.cons w tl2) rest (by simp) hl]
          rfl
    · intro ms rest hne hsz
      cases ms with
      | nil => exact absurd rfl hne
      | cons k v tl =>
        rw [parseObjEls_succ]
        have hszk : k.length + 1 ≤ f := by
          simp [sizeO] at hsz
          have := sizeJ_pos v
          have := sizeO_pos tl
          omega
        have hszv : sizeJ v ≤ f := by
          simp [sizeO] at hsz
          have := sizeO_pos tl
          omega
        cases tl with
        | nil =>
          rw [show serObj (JsonObj.cons k v .nil)
              = '\"' :: ((serStrBody k ++ ['\"']) ++ ':' :: serJson v) from by
            simp [serObj, serStr]]
          rw [List.cons_append]
          rw [show parseObjElsBody (parseStrBody f) (parseVal f) (parseObjEls f)
              ('\"' :: (((serStrBody k ++ ['\"']) ++ ':' :: serJson v)
                ++ '\x7d' :: rest))
            = (match parseStrBody f (((serStrBody k ++ ['\"']) ++ ':' :: serJson v)
                ++ '\x7d' :: rest) with
               | none => none
               | some (k2, r1) => objAfterKey (parseVal f) (parseObjEls f) k2 r1)
            from rfl]
          rw [show ((serStrBody k ++ ['\"']) ++ ':' :: serJson v) ++ '\x7d' :: rest
              = serStrBody k ++ '\"' :: (':' :: (serJson v ++ '\x7d' :: rest))
            from by simp]
          rw [parseStrBody_ser k f _ hszk]
          show objAfterKey (parseVal f) (parseObjEls f) k
            (':' :: (serJson v ++ '\x7d' :: rest)) = _
          rw [show objAfterKey (parseVal f) (parseObjEls f) k
              (':' :: (serJson v ++ '\x7d' :: rest))
            = (match parseVal f (serJson v ++ '\x7d' :: rest) with
               | none => none
               | some (v2, r3) => objAfterVal (parseObjEls f) k v2 r3) from rfl]
          rw [ihV v ('\x7d' :: rest) hszv (by simp only [noDigitHead]; decide)]
          show objAfterVal (parseObjEls f) k v ('\x7d' :: rest) = _
          rfl
        | cons k2 v2 tl2 =>
          have hszo : sizeO (JsonObj.cons k2 v2 tl2) ≤ f := by
            simp [sizeO] at hsz ⊢
            have := sizeJ_pos v
            omega
          rw [show serObj (JsonObj.cons k v (.cons k2 v2 tl2))
              = '\"' :: ((serStrBody k ++ ['\"']) ++ ':' :: serJson v
                ++ ',' :: serObj (.cons k2 v2 tl2)) from by
            simp [serObj, serStr]]
          rw [List.cons_append]
          rw [show parseObjElsBody (parseStrBody f) (parseVal f) (parseObjEls f)
              ('\"' :: (((serStrBody k ++ ['\"']) ++ ':' :: serJson v
                ++ ',' :: serObj (JsonObj.cons k2 v2 tl2)) ++ '\x7d' :: rest))
            = (match parseStrBody f (((serStrBody k ++ ['\"']) ++ ':' :: serJson v
                ++ ',' :: serObj (JsonObj.cons k2 v2 tl2)) ++ '\x7d' :: rest) with
               | none => none
               | some (k3, r1) => objAfterKey (parseVal f) (parseObjEls f) k3 r1)
            from rfl]
          rw [show ((serStrBody k ++ ['\"']) ++ ':' :: serJson v
                ++ ',' :: serObj (JsonObj.cons k2 v2 tl2)) ++ '\x7d' :: rest
              = serStrBody k ++ '\"' :: (':' :: (serJson v
                ++ ',' :: (serObj (JsonObj.cons k2 v2 tl2) ++ '\x7d' :: rest)))
            from by simp]
          rw [parseStrBody_ser k f _ hszk]
          show objAfterKey (parseVal f) (parseObjEls f) k
            (':' :: (serJson v
              ++ ',' :: (serObj (JsonObj.cons k2 v2 tl2) ++ '\x7d' :: rest))) = _
          rw [show objAfterKey (parseVal f) (parseObjEls f) k
              (':' :: (serJson v
                ++ ',' :: (serObj (JsonObj.cons k2 v2 tl2) ++ '\x7d' :: rest)))
            = (match parseVal f (serJson v
                ++ ',' :: (serObj (JsonObj.cons k2 v2 tl2) ++ '\x7d' :: rest)) with
               | none => none
               | some (v3, r3) => objAfterVal (parseObjEls f) k v3 r3) from rfl]
          rw [ihV v (',' :: (serObj (JsonObj.cons k2 v2 tl2) ++ '\x7d' :: rest))
            hszv (by simp only [noDigitHead]; decide)]
          show objAfterVal (parseObjEls f) k v
            (',' :: (serObj (JsonObj.cons k2 v2 tl2) ++ '\x7d' :: rest)) = _
          rw [show objAfterVal (parseObjEls f) k v
              (',' :: (serObj (JsonObj.cons k2 v2 tl2) ++ '\x7d' :: rest))
            = (parseObjEls f (serObj (JsonObj.cons k2 v2 tl2)
                ++ '\x7d' :: rest)).map
                (fun p => (JsonObj.cons k v p.1, p.2)) from rfl]
          rw [ihO (.cons k2 v2 tl2) rest (by simp) hszo]
          rfl

theorem serChar_length_pos (c : Char) : 1 ≤ (serChar c).length := by
  rw [serChar]
  split_ifs <;> simp

theorem serStrBody_length (s : List Char) : s.length ≤ (serStrBody s).length := by
  induction s with
  | nil => simp [serStrBody]
  | cons c cs ih =>
    have := serChar_length_pos c
    rw [serStrBody, List.length_append, List.length_cons]
    omega

mutual
theorem sizeJ_le_len : ∀ v : Json, sizeJ v ≤ (serJson v).length
  | .null => by
    rw [sizeJ, serJson, nullChars_eq]
    simp
  | .bool b => by
    cases b <;> (rw [sizeJ, serJson]) <;> (first | rw [trueChars_eq] | rw [falseChars_eq]) <;> simp
  | .num n => by
    cases n with
    | ofNat m =>
      obtain ⟨c, t, hct, _⟩ := serNat_head m
      rw [sizeJ, serJson, serInt, hct]
      simp
    | negSucc m =>
      rw [sizeJ, serJson, serInt]
      simp
  | .str s => by
    have := serStrBody_length s
    rw [sizeJ, serJson, serStr, List.length_cons, List.length_append]
    simp
    omega
  | .arr xs => by
    have := sizeL_le_len xs
    rw [sizeJ, serJson, List.length_cons, List.length_append]
    simp
    omega
  | .obj ms => by
    have := sizeO_le_len ms
    rw [sizeJ, serJson, List.length_cons, List.length_append]
    simp
    omega
theorem sizeL_le_len : ∀ xs : JsonList, sizeL xs ≤ (serList xs).length + 1
  | .nil => by
    rw [sizeL, serList]
    simp
  | .cons v .nil => by
    have := sizeJ_le_len v
    rw [sizeL, serList, sizeL]
    omega
  | .cons v (.cons w tl) => by
    have h1 := sizeJ_le_len v
    have h2 := sizeL_le_len (JsonList.cons w tl)
    rw [sizeL, serList, List.length_append, List.length_cons]
    omega
theorem sizeO_le_len : ∀ ms : JsonObj, sizeO ms ≤ (serObj ms).length + 1
  | .nil => by
    rw [sizeO, serObj]
    simp
  | .cons k v .nil => by
    have h1 := sizeJ_le_len v
    have h2 := serStrBody_length k
    rw [sizeO, serObj, serStr, sizeO]
    simp only [List.length_append, List.length_cons]
    omega
  | .cons k v (.cons k2 v2 tl) => by
    have h1 := sizeJ_le_len v
    have h2 := serStrBody_length k
    have h3 := sizeO_le_len (JsonObj.cons k2 v2 tl)
    rw [sizeO, serObj, serStr]
    simp only [List.length_append, List.length_cons]
    omega
end


theorem parseJSON_ser (v : Json) : parseJSON (serJson v) = some v := by
  rw [parseJSON]
  have hb : sizeJ v ≤ (serJson v).length + 1 := by
    have := sizeJ_le_len v
    omega
  have h := (parse_ser_master ((serJson v).length + 1)).1 v [] hb (by trivial)
  rw [List.append_nil] at h
  rw [h]

theorem fromJSON_getJSON {P : Type} (proto : P) (v : Json) :
    fromJSON proto (getJSON v) = setPrototypeOf v proto := by
  rw [fromJSON, getJSON, parseJSON_ser]


/-- C1: every valid builder chain (non-decreasing category ranks, the three
single-occurrence categories each used at most once) succeeds, and
`stringify()` on the resulting simple fragment is the separator-free
concatenation of the element text, the `#`-prefixed id, the `.`-prefixed
classes, the `[...]`-wrapped attributes, the `:`-prefixed pseudo-classes and
the `::`-prefixed pseudo-element, each multi-occurrence group in insertion
order. -/
theorem C1_valid_chain_stringify (ops : List (Category × String))
    (h : validChain ops) :
    ∃ s, runChain newSelector ops = Except.ok s ∧
      Selector.stringify (Selector.simple s) = expectedOutput ops := by
  obtain ⟨hnd, hE, hI, hP⟩ := h
  refine ⟨ops.foldl applySpecOp newSelector, ?_, ?_⟩
  · apply runChain_ok
    · rw [show newSelector.order = 0 from rfl, nondecreasing_zero_cons]
      exact hnd
    · intro _
      rfl
    · intro _
      rfl
    · intro _
      rfl
    · exact hE
    · exact hI
    · exact hP
  · exact stringify_foldl ops ⟨hnd, hE, hI, hP⟩

/-- C1 witness: the claim's own example chain is valid, runs, and renders as
`div#main.a.b[x]:hover::before`. -/
theorem C1_witness :
    validChain exampleChain ∧
    (∃ s, runChain newSelector exampleChain = Except.ok s ∧
      Selector.stringify (Selector.simple s) = expectedOutput exampleChain) ∧
    expectedOutput exampleChain = "div#main.a.b[x]:hover::before" :=
  ⟨by decide, C1_valid_chain_stringify exampleChain (by decide), by decide⟩

/-- C2 counterexample: the claim says a category call leaves all of the
receiver's observable state, its last-seen rank included, unchanged.  But
`ensureOrder` assigns `this.order` on the receiver itself before cloning:
after `a = element('div')`, the successful call `a.class('x')` leaves the
receiver with `order = 3`, not its prior `order = 1`. -/
theorem C2_counterexample :
    (newSelector.element "div").2 = Except.ok divFragment ∧
    (divFragment.«class» "x").2 =
      Except.ok { divFragment with classValues := [".x"], order := 3 } ∧
    (divFragment.«class» "x").1 ≠ divFragment ∧
    (divFragment.«class» "x").1.order = 3 ∧ divFragment.order = 1 :=
  ⟨rfl, rfl, by decide, rfl, rfl⟩

/-- C2 (amended): a successful category call returns a new, independent
fragment and leaves every stored part of the receiver unchanged, but the
receiver's last-seen category rank is overwritten with the called category's
rank (the `ensureOrder` assignment), so which further calls the receiver
itself accepts can change. -/
theorem C2_receiver_after_success (s : SimpleSelector) (c : Category)
    (v : String) (next : SimpleSelector)
    (h : (applyCategory s c v).2 = Except.ok next) :
    (applyCategory s c v).1 = { s with order := c.rank } :=
  applyCategory_receiver_of_ok s c v next h

/-- C2 witness: the amended statement at `a = element('div')`, `a.class('x')`. -/
theorem C2_witness :
    (applyCategory divFragment .«class» "x").2 =
        Except.ok { divFragment with classValues := [".x"], order := 3 } ∧
    (applyCategory divFragment .«class» "x").1 = { divFragment with order := 3 } :=
  ⟨rfl, C2_receiver_after_success divFragment .«class» "x" _ rfl⟩

/-- C3: calling a higher-ranked category and then a strictly lower-ranked one
on a fresh chain fails on the second call with the fixed ordering message;
equivalently, any append whose rank is strictly below the fragment's current
`order` raises that error. -/
theorem C3_ordering_violation :
    (∀ (c1 c2 : Category) (v1 v2 : String), c2.rank < c1.rank →
      ∃ a, (applyCategory newSelector c1 v1).2 = Except.ok a ∧
        (applyCategory a c2 v2).2 = Except.error orderingMessage) ∧
    (∀ (s : SimpleSelector) (c : Category) (v : String), c.rank < s.order →
      (applyCategory s c v).2 = Except.error orderingMessage) := by
  constructor
  · intro c1 c2 v1 v2 h
    have h0 : newSelector.order ≤ c1.rank := by cases c1 <;> decide
    have hs : singleOK newSelector c1 := by cases c1 <;> simp [singleOK, newSelector]
    refine ⟨applySpecOp newSelector (c1, v1), ?_, ?_⟩
    · rw [applyCategory_success newSelector c1 v1 h0 hs]
    · have horder : c2.rank < (applySpecOp newSelector (c1, v1)).order := by
        rw [applySpecOp_order]
        exact h
      rw [applyCategory_order_fail _ c2 v2 horder]
  · intro s c v h
    rw [applyCategory_order_fail s c v h]

/-- C3 witness: `id('main')` then `element('div')` raises the ordering error. -/
theorem C3_witness :
    Category.rank .element < Category.rank .id ∧
    (∃ a, (applyCategory newSelector .id "main").2 = Except.ok a ∧
      (applyCategory a .element "div").2 = Except.error orderingMessage) :=
  ⟨by decide, C3_ordering_violation.1 .id .element "main" "div" (by decide)⟩

/-- C4 counterexample: the claim says a repeated `element` call always fails,
for all values.  But `ensureSingle` tests JavaScript truthiness of the stored
field, and `element('')` stores the falsy empty string: the second call
`element('x')` then succeeds instead of throwing. -/
theorem C4_counterexample :
    (newSelector.element "").2 = Except.ok { newSelector with order := 1 } ∧
    (SimpleSelector.element { newSelector with order := 1 } "x").2 =
      Except.ok { newSelector with elementValue := "x", order := 1 } :=
  ⟨rfl, rfl⟩

/-- C4 (amended): repeating `id` or `pseudoElement` always fails on the
second call with the fixed uniqueness message (the stored `#...`/`::...`
token is never falsy); repeating `element` fails in the same way provided the
first value was a truthy (non-empty) string — `element('')` stores a falsy
value that the truthiness-based check does not catch. -/
theorem C4_uniqueness (v1 v2 : String) :
    (∃ a, (applyCategory newSelector .id v1).2 = Except.ok a ∧
      (applyCategory a .id v2).2 = Except.error uniquenessMessage) ∧
    (∃ a, (applyCategory newSelector .pseudoElement v1).2 = Except.ok a ∧
      (applyCategory a .pseudoElement v2).2 = Except.error uniquenessMessage) ∧
    (v1 ≠ "" →
      ∃ a, (applyCategory newSelector .element v1).2 = Except.ok a ∧
        (applyCategory a .element v2).2 = Except.error uniquenessMessage) := by
  refine ⟨⟨{ newSelector with idValue := "#" ++ v1, order := 2 }, ?_, ?_⟩,
    ⟨{ newSelector with pseudoElementValue := "::" ++ v1, order := 6 }, ?_, ?_⟩,
    fun hv1 => ⟨{ newSelector with elementValue := v1, order := 1 }, ?_, ?_⟩⟩
  · rw [show applyCategory newSelector .id v1 = newSelector.id v1 from rfl,
      SimpleSelector.id_success newSelector v1 (by decide) rfl]
  · rw [show applyCategory { newSelector with idValue := "#" ++ v1, order := 2 } .id v2
        = SimpleSelector.id { newSelector with idValue := "#" ++ v1, order := 2 } v2 from rfl,
      SimpleSelector.id_single_fail _ v2 (le_refl 2)
        (by simpa [truthy] using hash_append_ne_empty v1)]
  · rw [show applyCategory newSelector .pseudoElement v1 = newSelector.pseudoElement v1 from rfl,
      SimpleSelector.pseudoElement_success newSelector v1 (by decide) rfl]
  · rw [show applyCategory { newSelector with pseudoElementValue := "::" ++ v1, order := 6 }
          .pseudoElement v2
        = SimpleSelector.pseudoElement
            { newSelector with pseudoElementValue := "::" ++ v1, order := 6 } v2 from rfl,
      SimpleSelector.pseudoElement_single_fail _ v2 (le_refl 6)
        (by simpa [truthy] using colons_append_ne_empty v1)]
  · rw [show applyCategory newSelector .element v1 = newSelector.element v1 from rfl,
      SimpleSelector.element_success newSelector v1 (by decide) rfl]
  · rw [show applyCategory { newSelector with elementValue := v1, order := 1 } .element v2
        = SimpleSelector.element { newSelector with elementValue := v1, order := 1 } v2 from rfl,
      SimpleSelector.element_single_fail _ v2 (le_refl 1) (by simpa [truthy] using hv1)]

/-- C4 witness: the amended statement at `v1 = "a"`, `v2 = "b"`. -/
theorem C4_witness :
    ("a" : String) ≠ "" ∧
    (∃ a, (applyCategory newSelector .element "a").2 = Except.ok a ∧
      (applyCategory a .element "b").2 = Except.error uniquenessMessage) ∧
    (∃ a, (applyCategory newSelector .id "a").2 = Except.ok a ∧
      (applyCategory a .id "b").2 = Except.error uniquenessMessage) :=
  ⟨by decide, (C4_uniqueness "a" "b").2.2 (by decide), (C4_uniqueness "a" "b").1⟩

/-- C5: `combine` with any of the four documented combinator symbols
stringifies as the left side, one space, the symbol, one space, the right
side — so a space symbol yields a three-space run, and nested `combine`
nodes flatten recursively. -/
theorem C5_combine_stringify (l r : Selector) (c : String)
    (h : c = " " ∨ c = "+" ∨ c = "~" ∨ c = ">") :
    (combine l c r).stringify = l.stringify ++ " " ++ c ++ " " ++ r.stringify := by
  have hc : truthy c = true := by
    rcases h with h | h | h | h <;> subst h <;> decide
  rw [combine, if_pos hc, Selector.stringify]

/-- C5 witness: the nested example
`combine(combine(element('a'), '>', element('b')), '~', element('c'))`
renders as `"a > b ~ c"`. -/
theorem C5_witness :
    (("~" : String) = " " ∨ "~" = "+" ∨ "~" = "~" ∨ "~" = ">") ∧
    (combine (combine selA ">" selB) "~" selC).stringify = "a > b ~ c" :=
  ⟨Or.inr (Or.inr (Or.inl rfl)),
   (C5_combine_stringify (combine selA ">" selB) selC "~"
      (Or.inr (Or.inr (Or.inl rfl)))).trans (by decide)⟩

/-- C6: after any successful category call, the receiver's `stringify()` is
unchanged — the call only ever touches the receiver's `order`, which
`stringify` does not read. -/
theorem C6_stringify_snapshot (a : SimpleSelector) (c : Category) (v : String)
    (b : SimpleSelector) (h : (applyCategory a c v).2 = Except.ok b) :
    ((applyCategory a c v).1).stringify = a.stringify := by
  rcases applyCategory_receiver a c v with heq | heq
  · rw [heq]
  · rw [heq, stringify_set_order]

/-- C6 witness: with `a = class('x')` and `b = a.class('y')`, `a` still
stringifies to `".x"` after the call. -/
theorem C6_witness :
    (applyCategory dotXFragment .«class» "y").2 =
        Except.ok { dotXFragment with classValues := [".x", ".y"], order := 3 } ∧
    ((applyCategory dotXFragment .«class» "y").1).stringify = dotXFragment.stringify ∧
    dotXFragment.stringify = ".x" :=
  ⟨rfl, C6_stringify_snapshot dotXFragment .«class» "y" _ rfl, by decide⟩

/-- C8: the rectangle built from `w` and `h` exposes them as its `width` and
`height` fields and its `getArea()` returns their product. -/
theorem C8_rectangle (w h : Int) :
    (Rectangle.mk w h).width = w ∧ (Rectangle.mk w h).height = h ∧
      (Rectangle.mk w h).getArea = w * h :=
  ⟨rfl, rfl, rfl⟩

/-- C9: `combine` with a falsy combinator (for strings, only `''`) takes the
constructor's empty-simple-fragment branch: both child selectors are
discarded and the result stringifies to the empty string. -/
theorem C9_falsy_combinator (l r : Selector) (c : String)
    (h : truthy c = false) :
    combine l c r = Selector.simple newSelector ∧
      (combine l c r).stringify = "" := by
  have heq : combine l c r = Selector.simple newSelector := by
    rw [combine, if_neg (by simp [h])]
  exact ⟨heq, by rw [heq]; decide⟩

/-- C9 witness: `combine(element('a'), '', element('b'))` is the empty simple
fragment and stringifies to `""`. -/
theorem C9_witness :
    truthy "" = false ∧
    combine selA "" selB = Selector.simple newSelector ∧
    (combine selA "" selB).stringify = "" :=
  ⟨by decide, (C9_falsy_combinator selA selB "" (by decide)).1,
    (C9_falsy_combinator selA selB "" (by decide)).2⟩

/-- C10: in the three single-occurrence categories the ordering check runs
before the uniqueness check, so a call violating both (field already truthy
and rank strictly below the current `order`) fails with the ordering message
and never with the uniqueness message. -/
theorem C10_ordering_precedence (s : SimpleSelector) (c : Category) (v : String)
    (hsingleton : c = .element ∨ c = .id ∨ c = .pseudoElement)
    (hset : truthy (singletonField s c) = true)
    (horder : c.rank < s.order) :
    (applyCategory s c v).2 = Except.error orderingMessage ∧
      (applyCategory s c v).2 ≠ Except.error uniquenessMessage := by
  rw [applyCategory_order_fail s c v horder]
  refine ⟨rfl, fun hcontra => ?_⟩
  simp only [Except.error.injEq] at hcontra
  exact absurd hcontra (by decide)

/-- C10 witness: after `element('div').id('main')`, the call `element('c')`
violates both checks and fails with the ordering message. -/
theorem C10_witness :
    (Category.element = Category.element ∨ Category.element = Category.id ∨
      Category.element = Category.pseudoElement) ∧
    truthy (singletonField divMainFragment .element) = true ∧
    Category.rank .element < divMainFragment.order ∧
    ((applyCategory divMainFragment .element "c").2 = Except.error orderingMessage ∧
      (applyCategory divMainFragment .element "c").2 ≠ Except.error uniquenessMessage) :=
  ⟨Or.inl rfl, by decide, by decide,
    C10_ordering_precedence divMainFragment .element "c" (Or.inl rfl)
      (by decide) (by decide)⟩

/-- C7 counterexample: the claim says the round trip attaches `P` as the
prototype for every JSON-representable value, but `Object.setPrototypeOf`
throws a `TypeError` on `null`, so `fromJSON(P, getJSON(null))` throws
instead of producing `null` with `P` attached. -/
theorem C7_counterexample :
    fromJSON () (getJSON Json.null) = Except.error JsError.typeError := by
  rw [fromJSON_getJSON]
  rfl

/-- C7 (amended): for every JSON value `v` and capability set `P`,
`fromJSON(P, getJSON(v))` round-trips `v` exactly; `P` is attached when `v`
is an object or an array, a non-null primitive `v` comes back unchanged with
no prototype attached, and `v = null` raises a `TypeError` from
`Object.setPrototypeOf`.  No schema validation is performed. -/
theorem C7_roundtrip_prototype {P : Type} (proto : P) (v : Json) :
    fromJSON proto (getJSON v) =
      match v with
      | Json.null => Except.error JsError.typeError
      | Json.arr xs => Except.ok (JsValue.objWithProto (Json.arr xs) proto)
      | Json.obj ms => Except.ok (JsValue.objWithProto (Json.obj ms) proto)
      | other => Except.ok (JsValue.prim other) := by
  rw [fromJSON_getJSON]
  cases v <;> rfl
